import Mathlib

/-!
Shallow embedding of the bareASGI-cors CORS middleware
(`bareasgi_cors/cors_provider.py` and the older variant under
`src/bareasgi_cors/`, with its `headers.py` utilities).

Python `bytes`/`str` header names and values are modelled as `String`
(`.decode()` is the identity in the model).  Header collections are ordered
association lists `List (String × String)`, as on the ASGI wire.  Python
`AbstractSet[str]` configuration fields are modelled as `List String` with
membership via `List.contains`; `", ".join(xs)` joins in list order.  The
compiled origin regular expression is abstracted as a predicate
`String → Bool` (the result of `re.compile(...).match`).  Exceptions that the
code does not catch (`KeyError`, `TypeError`, a failed `assert`) are modelled
by an `Option` result being `none`.
-/

namespace Cors

/-- A single header: (name, value), both byte strings on the wire. -/
abbrev HeaderP := String × String

/-- The names of a header list, in order. -/
def keys (hs : List HeaderP) : List String := hs.map Prod.fst

def ACCESS_CONTROL_ALLOW_CREDENTIALS : String := "access-control-allow-credentials"
def ACCESS_CONTROL_ALLOW_HEADERS : String := "access-control-allow-headers"
def ACCESS_CONTROL_ALLOW_METHODS : String := "access-control-allow-methods"
def ACCESS_CONTROL_ALLOW_ORIGIN : String := "access-control-allow-origin"
def ACCESS_CONTROL_EXPOSE_HEADERS : String := "access-control-expose-headers"
def ACCESS_CONTROL_MAX_AGE : String := "access-control-max-age"
def ACCESS_CONTROL_REQUEST_METHOD : String := "access-control-request-method"
def ACCESS_CONTROL_REQUEST_HEADERS : String := "access-control-request-headers"
def COOKIE : String := "cookie"
def ORIGIN : String := "origin"
def VARY : String := "vary"

/-- `ALL_METHODS` from `cors_provider.py` (a Python set; modelled in literal
order, membership is all that matters). -/
def ALL_METHODS : List String := ["DELETE", "GET", "OPTIONS", "PATCH", "POST", "PUT"]

namespace header

/-- `bareutils.header.find(name, headers)`: the value of the first header with
the given name, or `None`. -/
def find (name : String) : List HeaderP → Option String
  | [] => none
  | (n, v) :: t => if n = name then some v else find name t

/-- `bareutils.header.upsert(name, value, headers)`: replace the first header
with the given name, or append.  (Identical to `upsert_header` in the old
variant's `headers.py`.) -/
def upsert (name value : String) : List HeaderP → List HeaderP
  | [] => [(name, value)]
  | (n, v) :: t => if n = name then (name, value) :: t else (n, v) :: upsert name value t

end header

/-- `for name, value in pairs: upsert(name, value, headers)` — apply a list of
upserts in order. -/
def applyAll (pairs : List HeaderP) (hs : List HeaderP) : List HeaderP :=
  pairs.foldl (fun acc p => header.upsert p.1 p.2 acc) hs

/-- Python truthiness of an `Optional[bytes]` header value: `None` and `b""`
are falsy. -/
def optTruthy : Option String → Bool
  | none => false
  | some s => !s.isEmpty

/-- Python `str.split(",")` (splits on every comma; `""` gives `[""]`). -/
def splitCommaAux : List Char → List (List Char)
  | [] => [[]]
  | c :: cs =>
    let r := splitCommaAux cs
    if c = ',' then [] :: r
    else
      match r with
      | [] => [[c]]
      | g :: gs => (c :: g) :: gs

/-- Python `str.split(",")` on a `String`. -/
def splitComma (s : String) : List String :=
  (splitCommaAux s.data).map List.asString

/-- Python `str.strip()`: drop whitespace from both ends. -/
def pyStrip (s : String) : String :=
  (((s.data.dropWhile Char.isWhitespace).reverse.dropWhile Char.isWhitespace).reverse).asString

/-- Python `", ".join(xs)` in list order. -/
def joinComma : List String → String
  | [] => ""
  | [s] => s
  | s :: t => s ++ ", " ++ joinComma t

/-- Rendering of a Python `bytes` value inside an f-string: both `{b!r}` and
`{b}` (via `str`) print `b'...'`.  Escaping of quotes inside the value is not
modelled. -/
def pyBytesRepr (s : String) : String := "b'" ++ s ++ "'"

/-- The constructor arguments of `CORSMiddleware.__init__` (both variants take
the same arguments).  `exposeHeaders = []` models Python `None` as well as an
empty set: `if expose_headers:` treats both as falsy. -/
structure Config where
  allowOrigins : Option (List String) := none
  allowMethods : Option (List String) := none
  allowHeaders : Option (List String) := none
  allowCredentials : Bool := false
  allowOriginRegex : Option (String → Bool) := none
  exposeHeaders : List String := []
  maxAge : Nat := 600

/-- The state of a constructed `CORSMiddleware` object (the fields assigned in
`__init__`).  `simpleHeaders` is the one field `_simple_response` mutates. -/
structure Engine where
  allowMethods : List String
  allowOriginRegex : Option (String → Bool)
  simpleHeaders : List HeaderP
  allowAllOrigins : Bool
  allowOrigins : Option (List String)
  preflightHeaders : List HeaderP
  allowAllHeaders : Bool
  allowHeaders : Option (List String)

/-- An HTTP request as seen by the middleware: `scope["method"]` and
`scope["headers"]`. -/
structure Request where
  method : String
  headers : List HeaderP
deriving DecidableEq

/-- An HTTP response `(status, headers, body)`.  A `None` header list is
normalised to `[]` (as `_simple_response` does); `pushes` is passed through
untouched and not modelled. -/
structure Response where
  status : Nat
  headers : List HeaderP
  body : String
deriving DecidableEq

/-- `CORSMiddleware.__init__` of `bareasgi_cors/cors_provider.py` (the current
variant). -/
def mkEngine (c : Config) : Engine :=
  let allowMethods := c.allowMethods.getD ALL_METHODS
  let allowAllOrigins := c.allowOrigins.isNone
  let simple0 : List HeaderP :=
    if allowAllOrigins then [(ACCESS_CONTROL_ALLOW_ORIGIN, "*")] else []
  let simple1 := simple0 ++
    (if c.allowCredentials then [(ACCESS_CONTROL_ALLOW_CREDENTIALS, "true")] else [])
  let simple2 := simple1 ++
    (if c.exposeHeaders.isEmpty then []
     else [(ACCESS_CONTROL_EXPOSE_HEADERS, joinComma c.exposeHeaders)])
  let pre0 : List HeaderP :=
    if allowAllOrigins then [(ACCESS_CONTROL_ALLOW_ORIGIN, "*")] else [(VARY, "Origin")]
  let pre1 := pre0 ++
    [(ACCESS_CONTROL_ALLOW_METHODS, joinComma allowMethods),
     (ACCESS_CONTROL_MAX_AGE, toString c.maxAge)]
  let pre2 := pre1 ++
    (match c.allowHeaders with
     | none => []
     | some l => [(ACCESS_CONTROL_ALLOW_HEADERS, joinComma l)])
  let pre3 := pre2 ++
    (if c.allowCredentials then [(ACCESS_CONTROL_ALLOW_CREDENTIALS, "true")] else [])
  { allowMethods := allowMethods
    allowOriginRegex := c.allowOriginRegex
    simpleHeaders := simple2
    allowAllOrigins := allowAllOrigins
    allowOrigins := if allowAllOrigins then none else c.allowOrigins
    preflightHeaders := pre3
    allowAllHeaders := c.allowHeaders.isNone
    allowHeaders := c.allowHeaders }

/-- `CORSMiddleware._is_allowed_origin` (current variant). -/
def isAllowedOrigin (e : Engine) (origin : String) : Bool :=
  if e.allowAllOrigins then true
  else
    let rxHit := match e.allowOriginRegex with
      | some rx => rx origin
      | none => false
    if rxHit then true
    else
      match e.allowOrigins with
      | none => false
      | some l => l.contains origin

/-- The first requested header token (after Python `"..."` split on `,` and
`strip()`) that is not in the allow-list, returned untrimmed — the loop body
raises `RuntimeError(f'Invalid header {hdr}')` with the raw token. -/
def firstBadToken (s : String) (allowed : List String) : Option String :=
  (splitComma s).find? (fun t => !allowed.contains (pyStrip t))

/-- `CORSMiddleware._preflight_check` (current variant).  The request header
map is queried through `find` (first value of each name, as
`header.to_dict(...)[name][0]`); a missing `origin` or
`access-control-request-method` key would raise `KeyError`, which the
`except RuntimeError` clause does not catch — modelled as `none`.  Both
callers guard against that. -/
def preflightCheck (e : Engine) (h : List HeaderP) : Option Response :=
  let rh0 := e.preflightHeaders
  match header.find ORIGIN h with
  | none => none
  | some requestedOrigin =>
    if isAllowedOrigin e requestedOrigin then
      let rh1 :=
        if !e.allowAllOrigins then
          header.upsert ACCESS_CONTROL_ALLOW_ORIGIN requestedOrigin rh0
        else rh0
      match header.find ACCESS_CONTROL_REQUEST_METHOD h with
      | none => none
      | some requestedMethod =>
        if !e.allowMethods.contains requestedMethod then
          some ⟨400, rh1, "Invalid method " ++ pyBytesRepr requestedMethod⟩
        else
          match header.find ACCESS_CONTROL_REQUEST_HEADERS h with
          | none => some ⟨200, rh1, "OK"⟩
          | some requestedHeaders =>
            if e.allowAllHeaders then
              some ⟨200, header.upsert ACCESS_CONTROL_ALLOW_HEADERS requestedHeaders rh1, "OK"⟩
            else
              -- `elif self.allow_headers:` — `None` and the empty set are falsy
              match e.allowHeaders with
              | none => some ⟨200, rh1, "OK"⟩
              | some l =>
                if l.isEmpty then some ⟨200, rh1, "OK"⟩
                else
                  match firstBadToken requestedHeaders l with
                  | some tok => some ⟨400, rh1, "Invalid header " ++ tok⟩
                  | none => some ⟨200, rh1, "OK"⟩
    else
      some ⟨400, rh0, "Invalid origin " ++ pyBytesRepr requestedOrigin⟩

/-- The header rewriting of `CORSMiddleware._simple_response` (current
variant), acting on the downstream response's header list.  Returns the new
response headers together with the (possibly mutated!) `self.simple_headers`
field. -/
def augment (e : Engine) (reqHeaders : List HeaderP) (origin : String)
    (respHeaders : List HeaderP) : List HeaderP × List HeaderP :=
  if e.allowAllOrigins && optTruthy (header.find COOKIE reqHeaders) then
    -- `header.upsert(ACCESS_CONTROL_ALLOW_ORIGIN, origin, self.simple_headers)`
    let sh := header.upsert ACCESS_CONTROL_ALLOW_ORIGIN origin e.simpleHeaders
    (applyAll sh respHeaders, sh)
  else if !e.allowAllOrigins && isAllowedOrigin e origin then
    let h1 := header.upsert ACCESS_CONTROL_ALLOW_ORIGIN origin respHeaders
    let h2 :=
      match header.find VARY h1 with
      | none => h1 ++ [(VARY, "Origin")]
      | some varyValues =>
        if varyValues.isEmpty then h1 ++ [(VARY, "Origin")]
        else header.upsert VARY (varyValues ++ ",Origin") h1
    (applyAll e.simpleHeaders h2, e.simpleHeaders)
  else
    (applyAll e.simpleHeaders respHeaders, e.simpleHeaders)

/-- `CORSMiddleware._simple_response` (current variant).  `none` models the
`assert origin is not None` failing (never reached via `__call__`). -/
def simpleResponse (e : Engine) (req : Request) (handler : Request → Response) :
    Option (Response × Engine) :=
  match header.find ORIGIN req.headers with
  | none => none
  | some origin =>
    let resp := handler req
    let (hs, sh) := augment e req.headers origin resp.headers
    some (⟨resp.status, hs, resp.body⟩, { e with simpleHeaders := sh })

/-- `CORSMiddleware.__call__` (current variant): dictionary key tests on
`header.to_dict(scope["headers"])` are equivalent to `find` being `some`. -/
def callMiddleware (e : Engine) (req : Request) (handler : Request → Response) :
    Option (Response × Engine) :=
  if header.find ORIGIN req.headers = none then
    some (handler req, e)
  else if req.method = "OPTIONS" ∧ (header.find ACCESS_CONTROL_REQUEST_METHOD req.headers).isSome then
    (preflightCheck e req.headers).map (fun r => (r, e))
  else
    simpleResponse e req handler

/-!
The older variant under `src/bareasgi_cors/` (here namespace `V2`): its own
`headers.py` utilities and a `cors_provider.py` that differs from the current
one in a few places (preflight base headers in wildcard mode, the empty
allow-headers branch, duplicate-intolerant header lookup).
-/

namespace V2

/-- `headers.find_headers(headers, name)`. -/
def findHeaders (hs : List HeaderP) (name : String) : List HeaderP :=
  hs.filter (fun p => p.1 = name)

/-- `headers.find_header_value(headers, name)`: the single matching value, or
`None`; raises `KeyError` (outer `none`) when more than one header matches. -/
def findHeaderValue (hs : List HeaderP) (name : String) : Option (Option String) :=
  let found := findHeaders hs name
  if found.length > 1 then none
  else some (found.head?.map Prod.snd)

/-- `headers.upsert_header(headers, name, value)`: replace the first header
with the given name, or append. -/
def upsertHeader (hs : List HeaderP) (name value : String) : List HeaderP :=
  match hs with
  | [] => [(name, value)]
  | (n, v) :: t => if n = name then (name, value) :: t else (n, v) :: upsertHeader t name value

/-- `for header in pairs: upsert_header(headers, *header)`. -/
def applyAll (pairs : List HeaderP) (hs : List HeaderP) : List HeaderP :=
  pairs.foldl (fun acc p => upsertHeader acc p.1 p.2) hs

/-- `CORSMiddleware.__init__` of the old variant: in wildcard mode the
preflight base headers are only `access-control-allow-origin: *` — the
allow-methods and max-age entries are added in the non-wildcard branch only. -/
def mkEngine (c : Config) : Engine :=
  let allowMethods := c.allowMethods.getD ALL_METHODS
  let allowAllOrigins := c.allowOrigins.isNone
  let simple0 : List HeaderP :=
    if allowAllOrigins then [(ACCESS_CONTROL_ALLOW_ORIGIN, "*")] else []
  let simple1 := simple0 ++
    (if c.allowCredentials then [(ACCESS_CONTROL_ALLOW_CREDENTIALS, "true")] else [])
  let simple2 := simple1 ++
    (if c.exposeHeaders.isEmpty then []
     else [(ACCESS_CONTROL_EXPOSE_HEADERS, joinComma c.exposeHeaders)])
  let pre0 : List HeaderP :=
    if allowAllOrigins then [(ACCESS_CONTROL_ALLOW_ORIGIN, "*")]
    else
      [(VARY, "Origin"),
       (ACCESS_CONTROL_ALLOW_METHODS, joinComma allowMethods),
       (ACCESS_CONTROL_MAX_AGE, toString c.maxAge)]
  let pre1 := pre0 ++
    (match c.allowHeaders with
     | none => []
     | some l => [(ACCESS_CONTROL_ALLOW_HEADERS, joinComma l)])
  let pre2 := pre1 ++
    (if c.allowCredentials then [(ACCESS_CONTROL_ALLOW_CREDENTIALS, "true")] else [])
  { allowMethods := allowMethods
    allowOriginRegex := c.allowOriginRegex
    simpleHeaders := simple2
    allowAllOrigins := allowAllOrigins
    allowOrigins := if allowAllOrigins then none else c.allowOrigins
    preflightHeaders := pre2
    allowAllHeaders := c.allowHeaders.isNone
    allowHeaders := c.allowHeaders }

/-- `CORSMiddleware._is_allowed_origin` of the old variant: it has no
`allow_origins is None` guard, so `origin_str in None` would raise `TypeError`
(`none`); that state is unreachable from `mkEngine`. -/
def isAllowedOrigin (e : Engine) (origin : String) : Option Bool :=
  if e.allowAllOrigins then some true
  else
    let rxHit := match e.allowOriginRegex with
      | some rx => rx origin
      | none => false
    if rxHit then some true
    else
      match e.allowOrigins with
      | none => none
      | some l => some (l.contains origin)

/-- `CORSMiddleware._preflight_check` of the old variant.  The only
behavioural differences to the current one: the final allow-headers branch is
a bare `else:` (so an empty allow-list does validate, rejecting every
requested token), and messages are rendered without `!r` (identical text for
`bytes`, since `str(b) == repr(b)`). -/
def preflightCheck (e : Engine) (h : List HeaderP) : Option Response :=
  let rh0 := e.preflightHeaders
  match header.find ORIGIN h with
  | none => none
  | some requestedOrigin =>
    match isAllowedOrigin e requestedOrigin with
    | none => none
    | some allowed =>
      if allowed then
        let rh1 :=
          if !e.allowAllOrigins then
            upsertHeader rh0 ACCESS_CONTROL_ALLOW_ORIGIN requestedOrigin
          else rh0
        match header.find ACCESS_CONTROL_REQUEST_METHOD h with
        | none => none
        | some requestedMethod =>
          if !e.allowMethods.contains requestedMethod then
            some ⟨400, rh1, "Invalid method " ++ pyBytesRepr requestedMethod⟩
          else
            match header.find ACCESS_CONTROL_REQUEST_HEADERS h with
            | none => some ⟨200, rh1, "OK"⟩
            | some requestedHeaders =>
              if e.allowAllHeaders then
                some ⟨200, upsertHeader rh1 ACCESS_CONTROL_ALLOW_HEADERS requestedHeaders, "OK"⟩
              else
                match e.allowHeaders with
                | none => none   -- `for ... in None` cannot happen: allowAllHeaders is false
                | some l =>
                  match firstBadToken requestedHeaders l with
                  | some tok => some ⟨400, rh1, "Invalid header " ++ tok⟩
                  | none => some ⟨200, rh1, "OK"⟩
      else
        some ⟨400, rh0, "Invalid origin " ++ pyBytesRepr requestedOrigin⟩

/-- The header rewriting of the old `_simple_response`, acting on the
downstream response's header list.  Lookups go through `find_header_value`,
which raises on duplicate names (outer `none`).  Returns the new response
headers together with the (possibly mutated) `self.simple_headers`. -/
def augment (e : Engine) (reqHeaders : List HeaderP) (origin : String)
    (respHeaders : List HeaderP) : Option (List HeaderP × List HeaderP) :=
  -- `if self.allow_all_origins and find_header_value(request_headers, COOKIE):`
  -- short-circuits: the cookie lookup only runs in wildcard mode.
  let cookieCond : Option Bool :=
    if e.allowAllOrigins then
      (findHeaderValue reqHeaders COOKIE).map optTruthy
    else some false
  match cookieCond with
  | none => none
  | some cookie =>
    if cookie then
      let sh := upsertHeader e.simpleHeaders ACCESS_CONTROL_ALLOW_ORIGIN origin
      some (applyAll sh respHeaders, sh)
    else
      -- `elif not self.allow_all_origins and self._is_allowed_origin(...)`,
      -- also short-circuiting.
      match (if !e.allowAllOrigins then isAllowedOrigin e origin else some false) with
      | none => none
      | some allowed =>
        if allowed then
          let h1 := upsertHeader respHeaders ACCESS_CONTROL_ALLOW_ORIGIN origin
          match findHeaderValue h1 VARY with
          | none => none
          | some varyValues =>
            let h2 :=
              if !optTruthy varyValues then h1 ++ [(VARY, "Origin")]
              else upsertHeader h1 VARY ((varyValues.getD "") ++ ",Origin")
            some (applyAll e.simpleHeaders h2, e.simpleHeaders)
        else
          some (applyAll e.simpleHeaders respHeaders, e.simpleHeaders)

/-- `CORSMiddleware._simple_response` of the old variant.  There is no
`assert` on the origin; if no `origin` header were present the code would
upsert a `None` value (unreachable through `__call__`) — modelled as `none`. -/
def simpleResponse (e : Engine) (req : Request) (handler : Request → Response) :
    Option (Response × Engine) :=
  match findHeaderValue req.headers ORIGIN with
  | none => none
  | some none => none
  | some (some origin) =>
    let resp := handler req
    match augment e req.headers origin resp.headers with
    | none => none
    | some (hs, sh) =>
      some (⟨resp.status, hs, resp.body⟩, { e with simpleHeaders := sh })

/-- `CORSMiddleware.__call__` of the old variant. -/
def callMiddleware (e : Engine) (req : Request) (handler : Request → Response) :
    Option (Response × Engine) :=
  if header.find ORIGIN req.headers = none then
    some (handler req, e)
  else if req.method = "OPTIONS" ∧ (header.find ACCESS_CONTROL_REQUEST_METHOD req.headers).isSome then
    (preflightCheck e req.headers).map (fun r => (r, e))
  else
    simpleResponse e req handler

end V2


/-! Generic lemmas about `find`, `upsert` and `applyAll`. -/

theorem find_upsert_self (n v : String) (h : List HeaderP) :
    header.find n (header.upsert n v h) = some v := by
  induction h with
  | nil => simp [header.upsert, header.find]
  | cons p t ih =>
    obtain ⟨m, w⟩ := p
    by_cases hm : m = n
    · simp [header.upsert, header.find, hm]
    · simp [header.upsert, header.find, hm, ih]

theorem find_upsert_ne (m n v : String) (h : List HeaderP) (hne : m ≠ n) :
    header.find m (header.upsert n v h) = header.find m h := by
  induction h with
  | nil => simp [header.upsert, header.find, Ne.symm hne]
  | cons p t ih =>
    obtain ⟨k, w⟩ := p
    by_cases hk : k = n
    · subst hk
      simp [header.upsert, header.find, Ne.symm hne, hne]
    · simp [header.upsert, header.find, hk, ih]

theorem upsert_self_of_find (n v : String) (h : List HeaderP)
    (hf : header.find n h = some v) : header.upsert n v h = h := by
  induction h with
  | nil => simp [header.find] at hf
  | cons p t ih =>
    obtain ⟨m, w⟩ := p
    by_cases hm : m = n
    · subst hm
      simp [header.find] at hf
      simp [header.upsert, hf]
    · simp [header.find, hm] at hf
      simp [header.upsert, hm, ih hf]

theorem find_eq_none_iff (n : String) (h : List HeaderP) :
    header.find n h = none ↔ n ∉ keys h := by
  induction h with
  | nil => simp [header.find, keys]
  | cons p t ih =>
    obtain ⟨m, w⟩ := p
    by_cases hm : m = n
    · subst hm
      simp [header.find, keys]
    · have hstep : header.find n ((m, w) :: t) = header.find n t := by
        simp [header.find, hm]
      rw [hstep, ih]
      show n ∉ keys t ↔ n ∉ m :: keys t
      simp only [List.mem_cons, not_or]
      exact ⟨fun hn => ⟨fun he => hm he.symm, hn⟩, fun hp => hp.2⟩

theorem keys_upsert_mem (n v : String) (h : List HeaderP) (hm : n ∈ keys h) :
    keys (header.upsert n v h) = keys h := by
  induction h with
  | nil => simp [keys] at hm
  | cons p t ih =>
    obtain ⟨m, w⟩ := p
    by_cases hk : m = n
    · simp [header.upsert, hk, keys]
    · have hm' : n ∈ keys t := by
        rcases List.mem_cons.mp (show n ∈ m :: keys t from hm) with he | ht
        · exact absurd he.symm hk
        · exact ht
      have hstep : header.upsert n v ((m, w) :: t) = (m, w) :: header.upsert n v t := by
        simp [header.upsert, hk]
      rw [hstep]
      show m :: keys (header.upsert n v t) = m :: keys t
      rw [ih hm']

theorem keys_upsert_not_mem (n v : String) (h : List HeaderP) (hm : n ∉ keys h) :
    keys (header.upsert n v h) = keys h ++ [n] := by
  induction h with
  | nil => simp [header.upsert, keys]
  | cons p t ih =>
    obtain ⟨m, w⟩ := p
    have hne : ¬ m = n := by
      intro he
      subst he
      exact hm (List.mem_cons_self m (keys t))
    have hnt : n ∉ keys t := fun ht => hm (List.mem_cons_of_mem m ht)
    have hstep : header.upsert n v ((m, w) :: t) = (m, w) :: header.upsert n v t := by
      simp [header.upsert, hne]
    rw [hstep]
    show m :: keys (header.upsert n v t) = (m :: keys t) ++ [n]
    rw [ih hnt, List.cons_append]

theorem nodup_keys_upsert (n v : String) (h : List HeaderP)
    (hnd : (keys h).Nodup) : (keys (header.upsert n v h)).Nodup := by
  by_cases hm : n ∈ keys h
  · rwa [keys_upsert_mem n v h hm]
  · rw [keys_upsert_not_mem n v h hm]
    apply List.Nodup.append hnd (List.nodup_singleton n)
    intro a ha hb
    simp at hb
    subst hb
    exact hm ha

theorem applyAll_cons (n v : String) (t : List HeaderP) (h : List HeaderP) :
    applyAll ((n, v) :: t) h = applyAll t (header.upsert n v h) := rfl

theorem find_applyAll_not_mem (n : String) (l h : List HeaderP) (hm : n ∉ keys l) :
    header.find n (applyAll l h) = header.find n h := by
  induction l generalizing h with
  | nil => rfl
  | cons p t ih =>
    obtain ⟨m, w⟩ := p
    have hne : n ≠ m := by
      intro he
      subst he
      exact hm (List.mem_cons_self n (keys t))
    have hnt : n ∉ keys t := fun ht => hm (List.mem_cons_of_mem m ht)
    rw [applyAll_cons, ih _ hnt, find_upsert_ne n m w h hne]

theorem applyAll_idem (l h : List HeaderP) (hnd : (keys l).Nodup) :
    applyAll l (applyAll l h) = applyAll l h := by
  induction l generalizing h with
  | nil => rfl
  | cons p t ih =>
    obtain ⟨m, w⟩ := p
    have hnd' := List.nodup_cons.mp (show (m :: keys t).Nodup from hnd)
    rw [applyAll_cons, applyAll_cons]
    have hfind : header.find m (applyAll t (header.upsert m w h)) = some w := by
      rw [find_applyAll_not_mem m t _ hnd'.1, find_upsert_self]
    rw [upsert_self_of_find _ _ _ hfind]
    exact ih _ hnd'.2

theorem nodup_keys_applyAll (l h : List HeaderP) (hnd : (keys h).Nodup) :
    (keys (applyAll l h)).Nodup := by
  induction l generalizing h with
  | nil => exact hnd
  | cons p t ih =>
    obtain ⟨m, w⟩ := p
    rw [applyAll_cons]
    exact ih _ (nodup_keys_upsert _ _ _ hnd)

/-! Bridging lemmas between the two variants' helpers. -/

theorem V2.upsertHeader_eq (hs : List HeaderP) (n v : String) :
    V2.upsertHeader hs n v = header.upsert n v hs := by
  induction hs with
  | nil => rfl
  | cons p t ih =>
    obtain ⟨m, w⟩ := p
    by_cases hm : m = n <;> simp [V2.upsertHeader, header.upsert, hm, ih]

theorem V2.applyAll_eq (l hs : List HeaderP) : V2.applyAll l hs = Cors.applyAll l hs := by
  induction l generalizing hs with
  | nil => rfl
  | cons p t ih =>
    rw [show V2.applyAll (p :: t) hs = V2.applyAll t (V2.upsertHeader hs p.1 p.2) from rfl,
      show Cors.applyAll (p :: t) hs = Cors.applyAll t (header.upsert p.1 p.2 hs) from rfl,
      V2.upsertHeader_eq, ih]

theorem V2.findHeaders_eq_nil (hs : List HeaderP) (n : String) (hm : n ∉ keys hs) :
    V2.findHeaders hs n = [] := by
  induction hs with
  | nil => rfl
  | cons p t ih =>
    obtain ⟨m, w⟩ := p
    have hne : ¬ m = n := by
      intro he
      subst he
      exact hm (List.mem_cons_self m (keys t))
    have hnt : n ∉ keys t := fun ht => hm (List.mem_cons_of_mem m ht)
    have := ih hnt
    simp [V2.findHeaders, hne] at this ⊢
    exact this

theorem V2.findHeaderValue_of_nodup (hs : List HeaderP) (n : String)
    (hnd : (keys hs).Nodup) : V2.findHeaderValue hs n = some (header.find n hs) := by
  induction hs with
  | nil => rfl
  | cons p t ih =>
    obtain ⟨m, w⟩ := p
    have hnd' := List.nodup_cons.mp (show (m :: keys t).Nodup from hnd)
    by_cases hm : m = n
    · subst hm
      have h1 : V2.findHeaders ((m, w) :: t) m = [(m, w)] := by
        have h0 := V2.findHeaders_eq_nil t m hnd'.1
        simp [V2.findHeaders] at h0 ⊢
        exact h0
      simp [V2.findHeaderValue, h1, header.find]
    · have h1 : V2.findHeaders ((m, w) :: t) n = V2.findHeaders t n := by
        simp [V2.findHeaders, hm]
      have h2 := ih hnd'.2
      simp only [V2.findHeaderValue, h1] at h2 ⊢
      rw [h2]
      simp [header.find, hm]

theorem nodup_keys_mkEngine_simple (c : Config) :
    (keys (mkEngine c).simpleHeaders).Nodup := by
  obtain ⟨ao, am, ah, cred, rx, eh, ma⟩ := c
  cases ao <;> cases cred <;> by_cases he : eh.isEmpty <;>
    simp [mkEngine, keys, he, ACCESS_CONTROL_ALLOW_ORIGIN,
      ACCESS_CONTROL_ALLOW_CREDENTIALS, ACCESS_CONTROL_EXPOSE_HEADERS]

theorem nodup_keys_mkEngine_preflight (c : Config) :
    (keys (mkEngine c).preflightHeaders).Nodup := by
  obtain ⟨ao, am, ah, cred, rx, eh, ma⟩ := c
  cases ao <;> cases ah <;> cases cred <;>
    simp [mkEngine, keys, ACCESS_CONTROL_ALLOW_ORIGIN, VARY,
      ACCESS_CONTROL_ALLOW_METHODS, ACCESS_CONTROL_MAX_AGE,
      ACCESS_CONTROL_ALLOW_HEADERS, ACCESS_CONTROL_ALLOW_CREDENTIALS]

/-- A downstream handler used by the concrete evaluations below. -/
def hdl0 : Request → Response := fun _ => ⟨200, [], "body"⟩

/-- C1: the engine's stored configuration is in fact mutated by the
wildcard-origin-with-Cookie simple-response path.  A fresh wildcard engine
stores `simple_headers = [(access-control-allow-origin, *)]`, and one simple
request carrying a `Cookie` header rewrites that stored list in place to the
request's origin (`header.upsert(..., self.simple_headers)` in
`_simple_response`), so the configuration is not "equal before and after each
call to the entry point". -/
theorem C1_stored_config_mutated :
    (mkEngine {}).simpleHeaders = [(ACCESS_CONTROL_ALLOW_ORIGIN, "*")] ∧
    (callMiddleware (mkEngine {})
        ⟨"GET", [("origin", "http://a.com"), ("cookie", "x=1")]⟩ hdl0).map
      (fun p => p.2.simpleHeaders)
      = some [(ACCESS_CONTROL_ALLOW_ORIGIN, "http://a.com")] := by
  exact ⟨by decide, by decide⟩

/-- C2: in wildcard mode, after one cookie-carrying simple request from
`http://a.com`, a later simple request without any `Cookie` header receives
`access-control-allow-origin: http://a.com` — the stale mirrored origin left
in the mutated `simple_headers` — rather than the `*` the claim requires for
every cookie-less request in the sequence. -/
theorem C2_wildcard_cookie_sequence_stale :
    ((callMiddleware (mkEngine {})
        ⟨"GET", [("origin", "http://a.com"), ("cookie", "x=1")]⟩ hdl0).bind
      (fun p => callMiddleware p.2 ⟨"GET", [("origin", "http://b.com")]⟩ hdl0)).map
      (fun p => header.find ACCESS_CONTROL_ALLOW_ORIGIN p.1.headers)
      = some (some "http://a.com") := by
  decide

/-- C5: `_is_allowed_origin` — wildcard mode always allows; with an explicit
set and no regex it allows exactly the members of the set; with a regex it
allows exactly the origins matching the regex or belonging to the set. -/
theorem C5_isAllowedOrigin_spec (c : Config) (O : String) :
    (c.allowOrigins = none → isAllowedOrigin (mkEngine c) O = true) ∧
    (∀ S, c.allowOrigins = some S → c.allowOriginRegex = none →
      (isAllowedOrigin (mkEngine c) O = true ↔ O ∈ S)) ∧
    (∀ S rx, c.allowOrigins = some S → c.allowOriginRegex = some rx →
      (isAllowedOrigin (mkEngine c) O = true ↔ (rx O = true ∨ O ∈ S))) := by
  refine ⟨fun hn => ?_, fun S hS hrx => ?_, fun S rx hS hrx => ?_⟩
  · simp [isAllowedOrigin, mkEngine, hn]
  · simp [isAllowedOrigin, mkEngine, hS, hrx]
  · by_cases hOr : rx O = true <;> simp [isAllowedOrigin, mkEngine, hS, hrx, hOr]

/-- Witness for C5 at a concrete configuration and origin. -/
theorem C5_witness :
    isAllowedOrigin (mkEngine { allowOrigins := some ["https://a.test"] }) "https://a.test"
      = true :=
  ((C5_isAllowedOrigin_spec { allowOrigins := some ["https://a.test"] }
      "https://a.test").2.1 ["https://a.test"] rfl rfl).mpr (by decide)

/-- C8: a request without an `Origin` header passes through untouched: the
middleware returns exactly the downstream handler's response, and the engine
state is unchanged. -/
theorem C8_no_origin_passthrough (e : Engine) (req : Request)
    (handler : Request → Response)
    (h : header.find ORIGIN req.headers = none) :
    callMiddleware e req handler = some (handler req, e) := by
  simp [callMiddleware, h]

/-- Witness for C8 at a concrete request with no `Origin` header. -/
theorem C8_witness :
    callMiddleware (mkEngine {}) ⟨"GET", [("accept", "text/html")]⟩
        (fun _ => ⟨204, [("x-user", "1")], "done"⟩)
      = some (⟨204, [("x-user", "1")], "done"⟩, mkEngine {}) :=
  C8_no_origin_passthrough (mkEngine {}) ⟨"GET", [("accept", "text/html")]⟩
    (fun _ => ⟨204, [("x-user", "1")], "done"⟩) (by decide)

/-- Helper: under the `__call__` guards (an `origin` header and an
`access-control-request-method` header are present), `_preflight_check`
always returns a response, and it is either `200/"OK"` or a `400`. -/
theorem preflight_shape (e : Engine) (h : List HeaderP) (o mth : String)
    (ho : header.find ORIGIN h = some o)
    (hm : header.find ACCESS_CONTROL_REQUEST_METHOD h = some mth) :
    ∃ r : Response, preflightCheck e h = some r ∧
      ((r.status = 200 ∧ r.body = "OK") ∨ r.status = 400) := by
  simp only [preflightCheck, ho, hm]
  repeat' split
  all_goals first
    | exact ⟨_, rfl, Or.inr rfl⟩
    | exact ⟨_, rfl, Or.inl ⟨rfl, rfl⟩⟩

/-- C4: a request with an `Origin` header, method `OPTIONS`, and an
`Access-Control-Request-Method` header is answered directly by the engine —
the result does not depend on the downstream handler at all — with either
status 200 and body "OK" or status 400, and the engine state is returned
unchanged by `__call__`. -/
theorem C4_preflight_answers_directly (e : Engine) (req : Request)
    (handler : Request → Response)
    (ho : (header.find ORIGIN req.headers).isSome = true)
    (hm : req.method = "OPTIONS")
    (ha : (header.find ACCESS_CONTROL_REQUEST_METHOD req.headers).isSome = true) :
    (∀ handler2 : Request → Response,
      callMiddleware e req handler2 = callMiddleware e req handler) ∧
    ∃ r : Response, callMiddleware e req handler = some (r, e) ∧
      ((r.status = 200 ∧ r.body = "OK") ∨ r.status = 400) := by
  obtain ⟨o, ho'⟩ := Option.isSome_iff_exists.mp ho
  obtain ⟨mth, hm'⟩ := Option.isSome_iff_exists.mp ha
  have hno : ¬ header.find ORIGIN req.headers = none := by simp [ho']
  have hcond : req.method = "OPTIONS" ∧
      (header.find ACCESS_CONTROL_REQUEST_METHOD req.headers).isSome := ⟨hm, ha⟩
  refine ⟨fun h2 => by simp [callMiddleware, hno, hcond], ?_⟩
  obtain ⟨r, hr, hs⟩ := preflight_shape e req.headers o mth ho' hm'
  refine ⟨r, ?_, hs⟩
  simp [callMiddleware, hno, hcond, hr]

/-- Witness for C4 at a concrete wildcard preflight request. -/
theorem C4_witness :
    ∃ r : Response, callMiddleware (mkEngine {})
        ⟨"OPTIONS", [("origin", "http://a.com"), ("access-control-request-method", "GET")]⟩
        hdl0
      = some (r, mkEngine {}) ∧
      ((r.status = 200 ∧ r.body = "OK") ∨ r.status = 400) :=
  (C4_preflight_answers_directly (mkEngine {})
    ⟨"OPTIONS", [("origin", "http://a.com"), ("access-control-request-method", "GET")]⟩
    hdl0 (by decide) rfl (by decide)).2

/-- C6: a preflight request (under the `__call__` guards) never escapes as an
exception — `_preflight_check` always returns a response.  Each failing policy
check returns status 400: an invalid origin yields exactly the base preflight
headers and the "Invalid origin" reason; a valid origin with a method outside
the allow-list yields the headers accumulated up to that point (the base
headers plus the mirrored origin in non-wildcard mode) and the "Invalid
method" reason; an invalid requested header token likewise yields the
accumulated headers and the "Invalid header" reason.  Conversely every 400
response has one of these shapes. -/
theorem C6_preflight_failure_shape (e : Engine) (h : List HeaderP) (o mth : String)
    (ho : header.find ORIGIN h = some o)
    (hm : header.find ACCESS_CONTROL_REQUEST_METHOD h = some mth) :
    (∃ r : Response, preflightCheck e h = some r ∧
      (r.status = 400 →
        (isAllowedOrigin e o = false ∧ r.headers = e.preflightHeaders ∧
          r.body = "Invalid origin " ++ pyBytesRepr o) ∨
        (isAllowedOrigin e o = true ∧
          r.headers = (if !e.allowAllOrigins then
              header.upsert ACCESS_CONTROL_ALLOW_ORIGIN o e.preflightHeaders
            else e.preflightHeaders) ∧
          (r.body = "Invalid method " ++ pyBytesRepr mth ∨
            ∃ tok, r.body = "Invalid header " ++ tok)))) ∧
    (isAllowedOrigin e o = false →
      preflightCheck e h
        = some ⟨400, e.preflightHeaders, "Invalid origin " ++ pyBytesRepr o⟩) ∧
    (isAllowedOrigin e o = true → e.allowMethods.contains mth = false →
      preflightCheck e h
        = some ⟨400,
            (if !e.allowAllOrigins then
                header.upsert ACCESS_CONTROL_ALLOW_ORIGIN o e.preflightHeaders
              else e.preflightHeaders),
            "Invalid method " ++ pyBytesRepr mth⟩) ∧
    (∀ s l tok, isAllowedOrigin e o = true → e.allowMethods.contains mth = true →
      header.find ACCESS_CONTROL_REQUEST_HEADERS h = some s →
      e.allowAllHeaders = false → e.allowHeaders = some l → l.isEmpty = false →
      firstBadToken s l = some tok →
      preflightCheck e h
        = some ⟨400,
            (if !e.allowAllOrigins then
                header.upsert ACCESS_CONTROL_ALLOW_ORIGIN o e.preflightHeaders
              else e.preflightHeaders),
            "Invalid header " ++ tok⟩) := by
  refine ⟨?_, ?_, ?_, ?_⟩
  · simp only [preflightCheck, ho, hm]
    by_cases hall : isAllowedOrigin e o = true
    · rw [if_pos hall]
      repeat' split
      all_goals first
        | exact ⟨_, rfl, fun hst => Or.inr ⟨hall, rfl, Or.inl rfl⟩⟩
        | exact ⟨_, rfl, fun hst => Or.inr ⟨hall, rfl, Or.inr ⟨_, rfl⟩⟩⟩
        | exact ⟨_, rfl, fun hst => absurd hst (by simp)⟩
    · rw [if_neg hall]
      refine ⟨_, rfl, fun hst => Or.inl ⟨?_, rfl, rfl⟩⟩
      exact (Bool.not_eq_true _).mp hall
  · intro hx
    simp [preflightCheck, ho, hx]
  · intro hall hmf
    have hmemf : mth ∉ e.allowMethods := by simpa using hmf
    simp [preflightCheck, ho, hall, hm, hmemf]
  · intro s l tok hall hmok hs haah hah hne hbad
    have hmem : mth ∈ e.allowMethods := by simpa using hmok
    simp [preflightCheck, ho, hall, hm, hmem, hs, haah, hah, hne, hbad]

/-- A non-wildcard engine used as the witness input for C6. -/
def c6e : Engine := mkEngine { allowOrigins := some ["https://a.test"] }

/-- A preflight request from a disallowed origin, for the C6 witness. -/
def c6h : List HeaderP :=
  [("origin", "http://evil.example"), ("access-control-request-method", "GET")]

/-- Witness for C6: the concrete disallowed-origin preflight really is
answered with status 400, the base preflight headers, and the "Invalid
origin" reason. -/
theorem C6_witness :
    preflightCheck c6e c6h
      = some ⟨400, c6e.preflightHeaders,
          "Invalid origin " ++ pyBytesRepr "http://evil.example"⟩ :=
  (C6_preflight_failure_shape c6e c6h "http://evil.example" "GET"
    (by decide) (by decide)).2.1 (by decide)



/-- C3 counterexample: with `allowedHeaders` the *empty* allow-list
(`allow_headers = set()`), a preflight requesting the header `X-Custom` — not
a member of the empty set — is *accepted* with status 200, because
`elif self.allow_headers:` treats the empty set as falsy and skips the header
check entirely.  The claim requires a 400 here. -/
theorem C3_counterexample :
    (preflightCheck (mkEngine { allowHeaders := some [] })
      [("origin", "http://a.com"), ("access-control-request-method", "GET"),
       ("access-control-request-headers", "X-Custom")]).map Response.status
      = some 200 := by
  decide

/-- C3 amended: for a *non-empty* fixed allow-list, a preflight that passes
the origin and method checks and whose `Access-Control-Request-Headers` value
contains a comma-separated token whose stripped form is not in the list is
rejected with status 400 and body `"Invalid header " ++ tok` — the raw
(untrimmed) offending token, so the body mentions the invalid header. -/
theorem C3_amended_invalid_header_rejected (e : Engine) (h : List HeaderP)
    (o mth s tok : String) (l : List String)
    (ho : header.find ORIGIN h = some o)
    (hall : isAllowedOrigin e o = true)
    (hm : header.find ACCESS_CONTROL_REQUEST_METHOD h = some mth)
    (hmok : e.allowMethods.contains mth = true)
    (hs : header.find ACCESS_CONTROL_REQUEST_HEADERS h = some s)
    (haah : e.allowAllHeaders = false)
    (hah : e.allowHeaders = some l)
    (hne : l.isEmpty = false)
    (hbad : firstBadToken s l = some tok) :
    preflightCheck e h = some ⟨400,
      (if !e.allowAllOrigins then
          header.upsert ACCESS_CONTROL_ALLOW_ORIGIN o e.preflightHeaders
        else e.preflightHeaders),
      "Invalid header " ++ tok⟩ := by
  have hmem : mth ∈ e.allowMethods := by simpa using hmok
  simp [preflightCheck, ho, hall, hm, hmem, hs, haah, hah, hne, hbad]

/-- Witness for the amended C3 at a concrete configuration and request. -/
theorem C3_witness :
    preflightCheck (mkEngine { allowHeaders := some ["x-allowed"] })
      [("origin", "http://a.com"), ("access-control-request-method", "GET"),
       ("access-control-request-headers", "X-Custom")]
      = some ⟨400,
        (if !(mkEngine { allowHeaders := some ["x-allowed"] }).allowAllOrigins then
            header.upsert ACCESS_CONTROL_ALLOW_ORIGIN "http://a.com"
              (mkEngine { allowHeaders := some ["x-allowed"] }).preflightHeaders
          else (mkEngine { allowHeaders := some ["x-allowed"] }).preflightHeaders),
        "Invalid header " ++ "X-Custom"⟩ :=
  C3_amended_invalid_header_rejected (mkEngine { allowHeaders := some ["x-allowed"] })
    [("origin", "http://a.com"), ("access-control-request-method", "GET"),
     ("access-control-request-headers", "X-Custom")]
    "http://a.com" "GET" "X-Custom" "X-Custom" ["x-allowed"]
    (by decide) (by decide) (by decide) (by decide) (by decide) (by decide)
    (by decide) (by decide) (by decide)



/-- C7 counterexample: on the non-wildcard allowed-origin path the
augmentation is *not* idempotent.  With allowed origin `http://a.com` and an
empty downstream header list, one application yields `vary: Origin`; a second
application finds the existing `vary` value truthy and upserts
`vary: Origin,Origin`, so the header sets differ. -/
theorem C7_counterexample :
    (augment { mkEngine { allowOrigins := some ["http://a.com"] } with
        simpleHeaders := (augment (mkEngine { allowOrigins := some ["http://a.com"] })
          [("origin", "http://a.com")] "http://a.com" []).2 }
      [("origin", "http://a.com")] "http://a.com"
      (augment (mkEngine { allowOrigins := some ["http://a.com"] })
        [("origin", "http://a.com")] "http://a.com" []).1).1
    ≠ (augment (mkEngine { allowOrigins := some ["http://a.com"] })
        [("origin", "http://a.com")] "http://a.com" []).1 := by
  decide

/-- C7 amended: the simple-response augmentation is idempotent on response
headers (threading the possibly mutated `simple_headers` state into the second
application) in wildcard-origin mode, and in non-wildcard mode when the origin
is not allowed; only the non-wildcard allowed-origin path, which appends
`,Origin` to an existing `vary` value, is not idempotent. -/
theorem C7_amended_idempotent (e : Engine) (reqH : List HeaderP) (origin : String)
    (h : List HeaderP)
    (hnd : (keys e.simpleHeaders).Nodup)
    (hx : ¬ (e.allowAllOrigins = false ∧ isAllowedOrigin e origin = true)) :
    augment { e with simpleHeaders := (augment e reqH origin h).2 } reqH origin
      (augment e reqH origin h).1
    = augment e reqH origin h := by
  by_cases hw : e.allowAllOrigins = true
  · by_cases hc : optTruthy (header.find COOKIE reqH) = true
    · -- wildcard + cookie: the stored list is upserted, then applied
      have e1 : augment e reqH origin h
          = (applyAll (header.upsert ACCESS_CONTROL_ALLOW_ORIGIN origin e.simpleHeaders) h,
             header.upsert ACCESS_CONTROL_ALLOW_ORIGIN origin e.simpleHeaders) := by
        simp [augment, hw, hc]
      have hnd2 : (keys (header.upsert ACCESS_CONTROL_ALLOW_ORIGIN origin e.simpleHeaders)).Nodup :=
        nodup_keys_upsert _ _ _ hnd
      have hself : header.upsert ACCESS_CONTROL_ALLOW_ORIGIN origin
          (header.upsert ACCESS_CONTROL_ALLOW_ORIGIN origin e.simpleHeaders)
          = header.upsert ACCESS_CONTROL_ALLOW_ORIGIN origin e.simpleHeaders :=
        upsert_self_of_find _ _ _ (find_upsert_self _ _ _)
      rw [e1]
      simp only [augment, hw, hc, if_true, Bool.and_self]
      simp [hself, applyAll_idem _ _ hnd2]
    · have e1 : augment e reqH origin h = (applyAll e.simpleHeaders h, e.simpleHeaders) := by
        simp [augment, hw, hc]
      have heng : ({ e with simpleHeaders := e.simpleHeaders } : Engine) = e := rfl
      rw [e1, heng]
      simp [augment, hw, hc, applyAll_idem _ _ hnd]
  · have hw' : e.allowAllOrigins = false := by
      cases hb : e.allowAllOrigins
      · rfl
      · exact absurd hb hw
    have hna : isAllowedOrigin e origin = false := by
      cases hb : isAllowedOrigin e origin
      · rfl
      · exact absurd ⟨hw', hb⟩ hx
    have e1 : augment e reqH origin h = (applyAll e.simpleHeaders h, e.simpleHeaders) := by
      simp [augment, hw', hna]
    have heng : ({ e with simpleHeaders := e.simpleHeaders } : Engine) = e := rfl
    rw [e1, heng]
    simp [augment, hw', hna, applyAll_idem _ _ hnd]

/-- Witness for the amended C7: wildcard mode with a cookie-carrying request. -/
theorem C7_witness :
    augment { mkEngine {} with
        simpleHeaders := (augment (mkEngine {})
          [("origin", "http://a.com"), ("cookie", "x=1")] "http://a.com" [("x-h", "1")]).2 }
      [("origin", "http://a.com"), ("cookie", "x=1")] "http://a.com"
      (augment (mkEngine {})
        [("origin", "http://a.com"), ("cookie", "x=1")] "http://a.com" [("x-h", "1")]).1
    = augment (mkEngine {})
        [("origin", "http://a.com"), ("cookie", "x=1")] "http://a.com" [("x-h", "1")] :=
  C7_amended_idempotent (mkEngine {}) [("origin", "http://a.com"), ("cookie", "x=1")]
    "http://a.com" [("x-h", "1")] (by decide) (by decide)



/-- Appending a single fresh name to a duplicate-free header list keeps the
names duplicate-free. -/
theorem nodup_keys_append_single (h : List HeaderP) (n v : String)
    (hnd : (keys h).Nodup) (hm : n ∉ keys h) : (keys (h ++ [(n, v)])).Nodup := by
  have hk : keys (h ++ [(n, v)]) = keys h ++ [n] := by simp [keys]
  rw [hk]
  apply List.Nodup.append hnd (List.nodup_singleton n)
  intro a ha hb
  simp at hb
  subst hb
  exact hm ha

/-- C9 counterexample: the simple path starts from the downstream response's
own header list and only upserts into it, so a duplicate name already present
downstream (here `x-dup`) survives into the engine's outgoing collection,
violating "each header name appears at most once ... including downstream
responses that already contain duplicate names". -/
theorem C9_counterexample :
    ¬ (keys (augment (mkEngine {}) [("origin", "http://a.com")] "http://a.com"
        [("x-dup", "1"), ("x-dup", "2")]).1).Nodup := by
  decide

/-- C9 amended: the engine never *introduces* a duplicate name.  Every
preflight response built from a duplicate-free base preflight header list has
duplicate-free names, and the simple-response augmentation preserves
duplicate-free names provided the downstream response does not carry a
`vary` header with the empty value (an empty `vary` is falsy in
`if not vary_values:`, causing an appended second `vary` entry). -/
theorem C9_amended_no_new_duplicates :
    (∀ (e : Engine) (h : List HeaderP) (r : Response),
        (keys e.preflightHeaders).Nodup →
        preflightCheck e h = some r → (keys r.headers).Nodup) ∧
    (∀ (e : Engine) (reqH : List HeaderP) (origin : String) (respH : List HeaderP),
        (keys respH).Nodup →
        header.find VARY respH ≠ some "" →
        (keys (augment e reqH origin respH).1).Nodup) := by
  constructor
  · intro e h r hnd hpre
    revert hpre
    simp only [preflightCheck]
    repeat' split
    all_goals intro hpre
    all_goals try cases hpre
    all_goals first
      | exact hnd
      | exact nodup_keys_upsert _ _ _ hnd
      | exact nodup_keys_upsert _ _ _ (nodup_keys_upsert _ _ _ hnd)
  · intro e reqH origin respH hnd hva
    have hVA : VARY ≠ ACCESS_CONTROL_ALLOW_ORIGIN := by decide
    have hfv : header.find VARY
        (header.upsert ACCESS_CONTROL_ALLOW_ORIGIN origin respH)
        = header.find VARY respH := find_upsert_ne _ _ _ _ hVA
    have hnd1 : (keys (header.upsert ACCESS_CONTROL_ALLOW_ORIGIN origin respH)).Nodup :=
      nodup_keys_upsert _ _ _ hnd
    simp only [augment]
    split
    · exact nodup_keys_applyAll _ _ hnd
    · split
      · split
        · rename_i hnone
          apply nodup_keys_applyAll
          apply nodup_keys_append_single _ _ _ hnd1
          exact (find_eq_none_iff _ _).mp hnone
        · rename_i v hsome
          split
          · rename_i he
            exfalso
            apply hva
            rw [← hfv, hsome]
            have hv : v = "" := by
              cases v with
              | mk data =>
                cases data with
                | nil => rfl
                | cons c cs =>
                  exfalso
                  simp [String.isEmpty, String.endPos] at he
                  have hb := congrArg String.Pos.byteIdx he
                  simp at hb
                  have hc := Char.utf8Size_pos c
                  omega
            rw [hv]
          · apply nodup_keys_applyAll
            exact nodup_keys_upsert _ _ _ hnd1
      · exact nodup_keys_applyAll _ _ hnd

/-- Witness for the amended C9 on a concrete duplicate-free downstream
response. -/
theorem C9_witness :
    (keys (augment (mkEngine {}) [("origin", "http://a.com")] "http://a.com"
        [("content-type", "text/plain")]).1).Nodup :=
  C9_amended_no_new_duplicates.2 (mkEngine {}) [("origin", "http://a.com")] "http://a.com"
    [("content-type", "text/plain")] (by decide) (by decide)



/-- A constructed engine is in wildcard mode exactly when its stored
allow-origins set is absent. -/
theorem mkEngine_inv (c : Config) :
    (mkEngine c).allowAllOrigins = (mkEngine c).allowOrigins.isNone := by
  cases hao : c.allowOrigins <;> simp [mkEngine, hao]

/-- The old `_is_allowed_origin` agrees with the current one (returning
`some`, i.e. not raising) on every engine satisfying the construction
invariant. -/
theorem isAllowedOrigin_agree (e : Engine) (o : String)
    (hinv : e.allowAllOrigins = e.allowOrigins.isNone) :
    V2.isAllowedOrigin e o = some (isAllowedOrigin e o) := by
  cases hb : e.allowAllOrigins
  · have hao : ∃ S, e.allowOrigins = some S := by
      cases hx : e.allowOrigins
      · rw [hb, hx] at hinv
        simp at hinv
      · exact ⟨_, rfl⟩
    obtain ⟨S, hS⟩ := hao
    cases hrx : e.allowOriginRegex with
    | none => simp [V2.isAllowedOrigin, isAllowedOrigin, hb, hS, hrx]
    | some rx =>
      by_cases hro : rx o = true <;>
        simp [V2.isAllowedOrigin, isAllowedOrigin, hb, hS, hrx, hro]
  · simp [V2.isAllowedOrigin, isAllowedOrigin, hb]

/-- The two variants' simple-response header rewriting agrees (and the old
one raises nothing) when the request's and the downstream response's header
names are duplicate-free. -/
theorem augment_eq (e : Engine) (reqH : List HeaderP) (o : String) (respH : List HeaderP)
    (hinv : e.allowAllOrigins = e.allowOrigins.isNone)
    (hreq : (keys reqH).Nodup) (hresp : (keys respH).Nodup) :
    V2.augment e reqH o respH = some (augment e reqH o respH) := by
  have hcook := V2.findHeaderValue_of_nodup reqH COOKIE hreq
  have hallow := isAllowedOrigin_agree e o hinv
  have hnd1 : (keys (header.upsert ACCESS_CONTROL_ALLOW_ORIGIN o respH)).Nodup :=
    nodup_keys_upsert _ _ _ hresp
  have hvv := V2.findHeaderValue_of_nodup (header.upsert ACCESS_CONTROL_ALLOW_ORIGIN o respH)
    VARY hnd1
  cases hb : e.allowAllOrigins
  · -- non-wildcard: the cookie branch is skipped in both variants
    cases ha : isAllowedOrigin e o
    · simp [V2.augment, augment, hb, hallow, ha, V2.applyAll_eq]
    · -- allowed origin: mirror + vary handling
      cases hf : header.find VARY (header.upsert ACCESS_CONTROL_ALLOW_ORIGIN o respH) with
      | none =>
        simp [V2.augment, augment, hb, hallow, ha, V2.applyAll_eq, V2.upsertHeader_eq,
          hvv, hf, optTruthy]
      | some v =>
        by_cases hv : v.isEmpty = true <;>
          simp [V2.augment, augment, hb, hallow, ha, V2.applyAll_eq, V2.upsertHeader_eq,
            hvv, hf, hv, optTruthy]
  · -- wildcard
    cases hct : optTruthy (header.find COOKIE reqH)
    · simp [V2.augment, augment, hb, hcook, hct, V2.applyAll_eq]
    · simp [V2.augment, augment, hb, hcook, hct, V2.applyAll_eq, V2.upsertHeader_eq]



/-- C10 counterexample: the variants are *not* observationally equivalent.
On a wildcard-mode preflight the current variant's response headers include
`access-control-allow-methods` and `access-control-max-age`, which the old
variant omits (it builds them only in the non-wildcard branch of
`__init__`). -/
theorem C10_counterexample :
    (callMiddleware (mkEngine { allowMethods := some ["GET"] })
        ⟨"OPTIONS", [("origin", "http://a.com"), ("access-control-request-method", "GET")]⟩
        hdl0).map (fun p => p.1.headers)
    ≠ (V2.callMiddleware (V2.mkEngine { allowMethods := some ["GET"] })
        ⟨"OPTIONS", [("origin", "http://a.com"), ("access-control-request-method", "GET")]⟩
        hdl0).map (fun p => p.1.headers) := by
  decide

/-- C10 amended: the two variants are observationally equivalent on every
request that is not a preflight (same response and same stored simple-header
evolution), provided the request's and the downstream response's header names
contain no duplicates; they differ on wildcard-mode preflight base headers,
on empty allow-header sets, and the old variant raises `KeyError` on
duplicate request header names where the current one picks the first
occurrence. -/
theorem C10_amended_non_preflight_equiv (c : Config) (req : Request)
    (handler : Request → Response)
    (hreq : (keys req.headers).Nodup)
    (hresp : (keys (handler req).headers).Nodup)
    (hnp : ¬ (req.method = "OPTIONS" ∧
      (header.find ACCESS_CONTROL_REQUEST_METHOD req.headers).isSome = true)) :
    (V2.callMiddleware (V2.mkEngine c) req handler).map (fun p => (p.1, p.2.simpleHeaders))
      = (callMiddleware (mkEngine c) req handler).map (fun p => (p.1, p.2.simpleHeaders)) ∧
    (callMiddleware (mkEngine c) req handler).isSome = true := by
  have hsh : (V2.mkEngine c).simpleHeaders = (mkEngine c).simpleHeaders := rfl
  by_cases ho : header.find ORIGIN req.headers = none
  · constructor
    · simp [callMiddleware, V2.callMiddleware, ho, hsh]
    · simp [callMiddleware, ho]
  · obtain ⟨o, ho'⟩ : ∃ o, header.find ORIGIN req.headers = some o := by
      cases hx : header.find ORIGIN req.headers
      · exact absurd hx ho
      · exact ⟨_, rfl⟩
    have hfv := V2.findHeaderValue_of_nodup req.headers ORIGIN hreq
    rw [ho'] at hfv
    have hinv2 : (V2.mkEngine c).allowAllOrigins = (V2.mkEngine c).allowOrigins.isNone :=
      mkEngine_inv c
    have haug2 : V2.augment (V2.mkEngine c) req.headers o (handler req).headers
        = some (augment (mkEngine c) req.headers o (handler req).headers) :=
      augment_eq (V2.mkEngine c) req.headers o (handler req).headers hinv2 hreq hresp
    constructor
    · simp [callMiddleware, V2.callMiddleware, ho, hnp, simpleResponse, V2.simpleResponse,
        ho', hfv, haug2]
    · simp [callMiddleware, ho, hnp, simpleResponse, ho']

/-- Witness for the amended C10 on a concrete cookie-carrying simple
request. -/
theorem C10_witness :
    (V2.callMiddleware (V2.mkEngine {})
        ⟨"GET", [("origin", "http://a.com"), ("cookie", "x=1")]⟩ hdl0).map
      (fun p => (p.1, p.2.simpleHeaders))
    = (callMiddleware (mkEngine {})
        ⟨"GET", [("origin", "http://a.com"), ("cookie", "x=1")]⟩ hdl0).map
      (fun p => (p.1, p.2.simpleHeaders)) :=
  (C10_amended_non_preflight_equiv {} ⟨"GET", [("origin", "http://a.com"), ("cookie", "x=1")]⟩
    hdl0 (by decide) (by decide) (by decide)).1


end Cors
